import Mathlib

set_option autoImplicit false

/-!
Shallow embedding of the global keyboard chord-activation engine from
`src/apps/web/src-tauri/src/keys.rs` (struct `Keys`, its methods, and the
`KeysHandle` wrapper), together with theorems about its behaviour.

Modelling decisions, all read off the Rust source:
* `AtomicU8 alt_pressed` is a `Nat`; `fetch_add`/`fetch_sub` wrap modulo
  `256` exactly as the Rust atomic does.
* The callback slot `RwLock<Option<Box<dyn Fn …>>>` is modelled by a boolean
  `has_callback` recording whether a callback is registered; each call to
  `handle_key` additionally returns the list of invocations `(state, source)`
  the registered callback receives (empty when no callback is registered).
* Key events arrive strictly serialized on the hook thread, so the engine is
  a sequential state machine: `handle_key` is a function from the engine
  state and one event to the next state plus the callback invocations.
* The external `rdev::listen` call is modelled from the spec as a call that
  either fails with the platform hook error or blocks for the process
  lifetime (`CallOutcome.blocks`): the spec states it "does not return while
  listening is active".
-/

namespace STT

/-- The Rust enum ActivationState from keys.rs. -/
inductive ActivationState where
  | Inactive
  | Active
deriving DecidableEq, Repr

/-- The Rust enum ActivationSource from keys.rs. -/
inductive ActivationSource where
  | LeftChord
  | RightChord
  | EitherChord
deriving DecidableEq, Repr

/-- The `rdev::Key` codes as seen by `Keys::handle_key`: the three tracked
keys are matched explicitly, every other key code falls into the `_ => return`
arm and is represented here by `Other code`. -/
inductive Key where
  | MetaLeft
  | MetaRight
  | Alt
  | Other (code : Nat)
deriving DecidableEq, Repr

/-- Whether a key is one of the three tracked by `Keys::handle_key`. -/
def Key.tracked : Key → Bool
  | .Other _ => false
  | _ => true

/-- One invocation of the registered transition callback. -/
abbrev CbCall := ActivationState × Option ActivationSource

/-- The fields of `struct Keys` (keys.rs lines 19–28). -/
structure Keys where
  meta_left : Bool
  meta_right : Bool
  alt_pressed : Nat
  state : ActivationState
  source : Option ActivationSource
  enabled_left : Bool
  enabled_right : Bool
  has_callback : Bool
deriving DecidableEq, Repr

/-- Embedding of `Keys::new` (keys.rs lines 31–42). -/
def Keys.new : Keys where
  meta_left := false
  meta_right := false
  alt_pressed := 0
  state := .Inactive
  source := none
  enabled_left := true
  enabled_right := true
  has_callback := false

/-- Embedding of `Keys::set_enabled` (keys.rs lines 44–47): stores both
enablement flags. The method body contains no callback call, hence the empty
invocation list. -/
def Keys.set_enabled (k : Keys) (left right : Bool) : Keys × List CbCall :=
  ({ k with enabled_left := left, enabled_right := right }, [])

/-- Embedding of `Keys::on_activation` (keys.rs lines 49–54): installs a
callback, replacing any previous one; afterwards the slot is occupied. -/
def Keys.on_activation (k : Keys) : Keys :=
  { k with has_callback := true }

/-- Embedding of `Keys::check_chord` (keys.rs lines 56–72). -/
def Keys.check_chord (k : Keys) : Option ActivationSource :=
  let alt : Bool := decide (0 < k.alt_pressed)
  if !alt then none
  else if k.meta_left && k.enabled_left then some .LeftChord
  else if k.meta_right && k.enabled_right then some .RightChord
  else none

/-- Lines 88–108 of keys.rs: the transition logic shared by the three tracked
keys, run after the flag/counter update on the state `k1`. -/
def Keys.step (k1 : Keys) (pressed : Bool) : Keys × List CbCall :=
  let chord := k1.check_chord
  if pressed then
    if k1.state = .Inactive ∧ chord.isSome then
      ({ k1 with state := .Active, source := chord },
        if k1.has_callback then [(.Active, chord)] else [])
    else (k1, [])
  else
    if k1.state = .Active ∧ chord = none then
      ({ k1 with state := .Inactive, source := none },
        if k1.has_callback then [(.Inactive, k1.source)] else [])
    else (k1, [])

/-- Embedding of `Keys::handle_key` (keys.rs lines 74–109): update the flag
or counter for the matched key, or return untouched for any other key, then
run the transition logic of lines 88–108 (`Keys.step`). `fetch_add` and
`fetch_sub` on the `AtomicU8` wrap modulo `2^8`. -/
def Keys.handle_key (k : Keys) (key : Key) (pressed : Bool) : Keys × List CbCall :=
  match key with
  | .MetaLeft => Keys.step { k with meta_left := pressed } pressed
  | .MetaRight => Keys.step { k with meta_right := pressed } pressed
  | .Alt =>
      Keys.step
        { k with alt_pressed :=
            if pressed then (k.alt_pressed + 1) % 256
            else (k.alt_pressed + 255) % 256 }
        pressed
  | .Other _ => (k, [])

/-- The flag/counter update performed by the first match of
`Keys::handle_key` before the transition logic runs, as a standalone
function on the engine state. -/
def Keys.updateFlag (k : Keys) (key : Key) (pressed : Bool) : Keys :=
  match key with
  | .MetaLeft => { k with meta_left := pressed }
  | .MetaRight => { k with meta_right := pressed }
  | .Alt =>
      { k with alt_pressed :=
          if pressed then (k.alt_pressed + 1) % 256
          else (k.alt_pressed + 255) % 256 }
  | .Other _ => k

/-- Embedding of `Keys::get_state` (keys.rs lines 111–113). -/
def Keys.get_state (k : Keys) : ActivationState := k.state

/-- Embedding of `Keys::get_source` (keys.rs lines 115–117). -/
def Keys.get_source (k : Keys) : Option ActivationSource := k.source

/-- A key event as delivered by the listen loop: the key and whether it was a
press (`true`) or a release (`false`). -/
abbrev KeyEvent := Key × Bool

/-- Serial processing of a list of key events, accumulating the callback
invocations in order. -/
def Keys.run (k : Keys) (evs : List KeyEvent) : Keys × List CbCall :=
  match evs with
  | [] => (k, [])
  | e :: rest =>
      let r := k.handle_key e.1 e.2
      let r2 := r.1.run rest
      (r2.1, r.2 ++ r2.2)

/-- The engine state after serially processing `evs`. -/
def Keys.runK (k : Keys) (evs : List KeyEvent) : Keys := (k.run evs).1

/-- The left side's chord-satisfaction condition as worded by the spec:
hold-count positive, left modifier flag set, left side enabled. -/
def leftSat (k : Keys) : Prop :=
  0 < k.alt_pressed ∧ k.meta_left = true ∧ k.enabled_left = true

/-- The right side's chord-satisfaction condition as worded by the spec. -/
def rightSat (k : Keys) : Prop :=
  0 < k.alt_pressed ∧ k.meta_right = true ∧ k.enabled_right = true

instance : DecidablePred leftSat := fun k => by unfold leftSat; infer_instance

instance : DecidablePred rightSat := fun k => by unfold rightSat; infer_instance

/-- The engine states reachable from a fresh engine by any serialized
interleaving of the public operations. -/
inductive Reachable : Keys → Prop where
  | new : Reachable Keys.new
  | handle (k : Keys) (key : Key) (pressed : Bool) :
      Reachable k → Reachable (k.handle_key key pressed).1
  | set (k : Keys) (left right : Bool) :
      Reachable k → Reachable (k.set_enabled left right).1
  | register (k : Keys) : Reachable k → Reachable k.on_activation

/-- The engine state after the first `i` events of `evs` (the whole run when
`i` exceeds the length). -/
def stateAt (k : Keys) (evs : List KeyEvent) (i : Nat) : Keys :=
  k.runK (evs.take i)

/-- The engine transitions to Active while processing event `i` of `evs`. -/
abbrev transitionToActiveAt (k : Keys) (evs : List KeyEvent) (i : Nat) : Prop :=
  (stateAt k evs i).state = .Inactive ∧ (stateAt k evs (i + 1)).state = .Active

/-- Index `i` witnesses claim C6 as stated: the engine transitioned to
Active at event `i` and chord satisfaction (re-evaluated on the updated
flags, i.e. on the state after each event) never became false for both sides
at any later event. -/
abbrev GoodIndexOrig (k : Keys) (evs : List KeyEvent) (i : Nat) : Prop :=
  i < evs.length ∧ transitionToActiveAt k evs i ∧
    ∀ j, i < j → j < evs.length →
      (stateAt k evs (j + 1)).check_chord ≠ none

/-- Claim C6 as stated, for a given start state and event sequence: Active
at the end iff some event transitioned to Active and no later event saw
chord satisfaction false for both sides. -/
abbrev mostRecentActivationClaim (k : Keys) (evs : List KeyEvent) : Prop :=
  (k.runK evs).state = .Active ↔ ∃ i, GoodIndexOrig k evs i

/-- Index `i` witnesses the amended claim C6: as `GoodIndexOrig`, but only
release events at which chord satisfaction is false for both sides are
forbidden after the transition (a press event evaluating the chord false —
possible only through the hold-counter wrapping — does not deactivate). -/
abbrev GoodIndex (k : Keys) (evs : List KeyEvent) (i : Nat) : Prop :=
  i < evs.length ∧ transitionToActiveAt k evs i ∧
    ∀ j, i < j → j < evs.length →
      (evs.getD j (Key.Other 0, true)).2 = false →
      (stateAt k evs (j + 1)).check_chord ≠ none

/-- Every prefix of the run of `evs` from `k` (including the empty one)
leaves the engine Active. -/
def StaysActive (k : Keys) (evs : List KeyEvent) : Prop :=
  ∀ i, i ≤ evs.length → (k.runK (evs.take i)).state = .Active

/-- Iterated handling of `n` release events for the secondary chord key. -/
def Keys.releaseAltN (k : Keys) : Nat → Keys
  | 0 => k
  | n + 1 => ((k.handle_key .Alt false).1).releaseAltN n

/-- The platform hook error (`rdev::ListenError`), carrying an abstract
code distinguishing the platform failure cases. -/
structure ListenError where
  code : Nat
deriving DecidableEq, Repr

/-- Outcome of calling a function that may return a value, fail with a
platform hook error, or block for the process lifetime without returning. -/
inductive CallOutcome (α : Type) where
  | ret (a : α)
  | err (e : ListenError)
  | blocks

/-- Whether a call outcome is a normal return. -/
def CallOutcome.isRet {α : Type} : CallOutcome α → Bool
  | .ret _ => true
  | _ => false

/-- Modelled from the spec: the external `rdev::listen` call consumed by
`Keys::start_listening`. Per the spec it "fails with a PlatformHookError if
the OS refuses to install the global hook" and otherwise "does not return
while listening is active", i.e. it blocks for the process lifetime. The
OS's decision is the parameter `refusal`. -/
def listenModel (refusal : Option ListenError) : CallOutcome Unit :=
  match refusal with
  | some e => .err e
  | none => .blocks

/-- Embedding of `Keys::start_listening` (keys.rs lines 119–130): calls
`rdev::listen` with the event-dispatch closure on the current thread and
returns its result unchanged. -/
def Keys.start_listening (refusal : Option ListenError) : CallOutcome Unit :=
  listenModel refusal

/-- The fields of `struct KeysHandle` (keys.rs lines 139–141). -/
structure KeysHandle where
  keys : Keys

/-- Embedding of `KeysHandle::new` (keys.rs lines 144–149): constructs the
engine, calls `start_listening` on the current thread (the source spawns no
thread), propagates its error via `?`, and reaches `Ok(Self { keys })` only
if `start_listening` returns normally. -/
def KeysHandle.new (refusal : Option ListenError) : CallOutcome KeysHandle :=
  match Keys.start_listening refusal with
  | .err e => .err e
  | .blocks => .blocks
  | .ret _ => .ret { keys := Keys.new }

/-- The five-event sequence of claim C1: press left modifier, press the
secondary key, press right modifier, release left modifier, release right
modifier. -/
def c1Events : List KeyEvent :=
  [(.MetaLeft, true), (.Alt, true), (.MetaRight, true),
   (.MetaLeft, false), (.MetaRight, false)]

/-- The three-event sequence refuting claim C6 as stated: a release of the
secondary key on a fresh engine wraps the hold-counter to 255, a left
modifier press then activates the engine, and one further secondary-key
press wraps the counter back to 0, so chord satisfaction evaluates false for
both sides at that press — yet the engine stays Active. -/
def c6Events : List KeyEvent :=
  [(.Alt, false), (.MetaLeft, true), (.Alt, true)]

/-- A concrete Active engine state: fresh engine, callback registered, left
modifier pressed, then secondary key pressed. -/
def kActive : Keys :=
  Keys.new.on_activation.runK [(.MetaLeft, true), (.Alt, true)]

/-- A concrete Active engine state with both sides disabled afterwards. -/
def kActiveDisabled : Keys :=
  (kActive.set_enabled false false).1

/-- A concrete Inactive engine state (left modifier held, hold-count zero)
at which a release of the secondary key makes chord satisfaction true while
the engine is Inactive. -/
def kInactiveChord : Keys :=
  Keys.new.runK [(.MetaLeft, true)]

instance (k : Keys) (evs : List KeyEvent) : Decidable (StaysActive k evs) := by
  unfold StaysActive; infer_instance

/-!  Theorems.  First, basic unfolding and preservation lemmas. -/

theorem runK_nil (k : Keys) : k.runK [] = k := rfl

theorem runK_cons (k : Keys) (e : KeyEvent) (evs : List KeyEvent) :
    k.runK (e :: evs) = ((k.handle_key e.1 e.2).1).runK evs := rfl

theorem runK_append (k : Keys) (xs ys : List KeyEvent) :
    k.runK (xs ++ ys) = (k.runK xs).runK ys := by
  induction xs generalizing k with
  | nil => rfl
  | cons e xs ih => simp [runK_cons, ih]

theorem handle_key_eq_step (k : Keys) (key : Key) (pressed : Bool)
    (h : key.tracked = true) :
    k.handle_key key pressed = Keys.step (k.updateFlag key pressed) pressed := by
  cases key <;> simp_all [Key.tracked, Keys.handle_key, Keys.updateFlag]

theorem updateFlag_state (k : Keys) (key : Key) (pressed : Bool) :
    (k.updateFlag key pressed).state = k.state := by
  cases key <;> rfl

theorem updateFlag_source (k : Keys) (key : Key) (pressed : Bool) :
    (k.updateFlag key pressed).source = k.source := by
  cases key <;> rfl

theorem updateFlag_has_callback (k : Keys) (key : Key) (pressed : Bool) :
    (k.updateFlag key pressed).has_callback = k.has_callback := by
  cases key <;> rfl

theorem step_fst_press (k1 : Keys) :
    (Keys.step k1 true).1 =
      if k1.state = .Inactive ∧ k1.check_chord.isSome then
        { k1 with state := .Active, source := k1.check_chord }
      else k1 := by
  by_cases h : k1.state = .Inactive ∧ k1.check_chord.isSome <;>
    simp [Keys.step, h]

theorem step_snd_press (k1 : Keys) :
    (Keys.step k1 true).2 =
      if k1.state = .Inactive ∧ k1.check_chord.isSome then
        (if k1.has_callback then [(.Active, k1.check_chord)] else [])
      else [] := by
  by_cases h : k1.state = .Inactive ∧ k1.check_chord.isSome <;>
    simp [Keys.step, h]

theorem step_fst_release (k1 : Keys) :
    (Keys.step k1 false).1 =
      if k1.state = .Active ∧ k1.check_chord = none then
        { k1 with state := .Inactive, source := none }
      else k1 := by
  by_cases h : k1.state = .Active ∧ k1.check_chord = none <;>
    simp [Keys.step, h]

theorem step_snd_release (k1 : Keys) :
    (Keys.step k1 false).2 =
      if k1.state = .Active ∧ k1.check_chord = none then
        (if k1.has_callback then [(.Inactive, k1.source)] else [])
      else [] := by
  by_cases h : k1.state = .Active ∧ k1.check_chord = none <;>
    simp [Keys.step, h]

theorem check_chord_step (k1 : Keys) (pressed : Bool) :
    (Keys.step k1 pressed).1.check_chord = k1.check_chord := by
  cases pressed
  · rw [step_fst_release]; split_ifs <;> rfl
  · rw [step_fst_press]; split_ifs <;> rfl

theorem has_callback_step (k1 : Keys) (pressed : Bool) :
    (Keys.step k1 pressed).1.has_callback = k1.has_callback := by
  cases pressed
  · rw [step_fst_release]; split_ifs <;> rfl
  · rw [step_fst_press]; split_ifs <;> rfl

theorem state_step_press (k1 : Keys) :
    (Keys.step k1 true).1.state = .Active ↔
      (k1.state = .Active ∨ k1.check_chord.isSome = true) := by
  rw [step_fst_press]
  split_ifs with h
  · simp [h.1, h.2]
  · cases hst : k1.state <;> simp_all

theorem state_step_release (k1 : Keys) :
    (Keys.step k1 false).1.state = .Active ↔
      (k1.state = .Active ∧ k1.check_chord ≠ none) := by
  rw [step_fst_release]
  split_ifs with h
  · simp [h.1, h.2]
  · cases hst : k1.state <;> simp_all

theorem alt_step (k1 : Keys) (pressed : Bool) :
    (Keys.step k1 pressed).1.alt_pressed = k1.alt_pressed := by
  cases pressed
  · rw [step_fst_release]; split_ifs <;> rfl
  · rw [step_fst_press]; split_ifs <;> rfl

theorem has_callback_handle (k : Keys) (key : Key) (pressed : Bool) :
    (k.handle_key key pressed).1.has_callback = k.has_callback := by
  by_cases htr : key.tracked = true
  · rw [handle_key_eq_step _ _ _ htr, has_callback_step, updateFlag_has_callback]
  · cases key <;> simp_all [Key.tracked, Keys.handle_key]

theorem check_chord_handle (k : Keys) (key : Key) (pressed : Bool)
    (h : key.tracked = true) :
    (k.handle_key key pressed).1.check_chord =
      (k.updateFlag key pressed).check_chord := by
  rw [handle_key_eq_step _ _ _ h, check_chord_step]

theorem state_handle_press (k : Keys) (key : Key) (h : key.tracked = true) :
    (k.handle_key key true).1.state = .Active ↔
      (k.state = .Active ∨ (k.updateFlag key true).check_chord.isSome = true) := by
  rw [handle_key_eq_step k key true h, state_step_press, updateFlag_state]

theorem state_handle_release (k : Keys) (key : Key) (h : key.tracked = true) :
    (k.handle_key key false).1.state = .Active ↔
      (k.state = .Active ∧ (k.updateFlag key false).check_chord ≠ none) := by
  rw [handle_key_eq_step k key false h, state_step_release, updateFlag_state]

theorem alt_handle_release (k : Keys) :
    (k.handle_key .Alt false).1.alt_pressed = (k.alt_pressed + 255) % 256 := by
  rw [handle_key_eq_step k .Alt false rfl, alt_step]
  rfl

theorem source_handle_of_still_active (k : Keys) (key : Key) (pressed : Bool)
    (hA : k.state = .Active)
    (hA2 : (k.handle_key key pressed).1.state = .Active) :
    (k.handle_key key pressed).1.source = k.source := by
  by_cases htr : key.tracked = true
  · rw [handle_key_eq_step k key pressed htr] at hA2 ⊢
    cases pressed
    · by_cases hcond : (k.updateFlag key false).state = .Active ∧
          (k.updateFlag key false).check_chord = none
      · rw [step_fst_release, if_pos hcond] at hA2
        exact ActivationState.noConfusion hA2
      · rw [step_fst_release, if_neg hcond]
        exact updateFlag_source k key false
    · by_cases hcond : (k.updateFlag key true).state = .Inactive ∧
          (k.updateFlag key true).check_chord.isSome
      · rw [updateFlag_state, hA] at hcond
        exact ActivationState.noConfusion hcond.1
      · rw [step_fst_press, if_neg hcond]
        exact updateFlag_source k key true
  · cases key <;> simp_all [Key.tracked, Keys.handle_key]

theorem output_handle_deactivation (k : Keys) (key : Key) (pressed : Bool)
    (hA : k.state = .Active)
    (hI : (k.handle_key key pressed).1.state = .Inactive) :
    (k.handle_key key pressed).2 =
      if k.has_callback then [(.Inactive, k.source)] else [] := by
  by_cases htr : key.tracked = true
  · rw [handle_key_eq_step k key pressed htr] at hI ⊢
    cases pressed
    · by_cases hcond : (k.updateFlag key false).state = .Active ∧
          (k.updateFlag key false).check_chord = none
      · rw [step_snd_release, if_pos hcond, updateFlag_has_callback,
          updateFlag_source]
      · rw [step_fst_release, if_neg hcond, updateFlag_state] at hI
        exact absurd hI (by simp [hA])
    · by_cases hcond : (k.updateFlag key true).state = .Inactive ∧
          (k.updateFlag key true).check_chord.isSome
      · rw [updateFlag_state, hA] at hcond
        exact ActivationState.noConfusion hcond.1
      · rw [step_fst_press, if_neg hcond, updateFlag_state] at hI
        exact absurd hI (by simp [hA])
  · cases key <;> simp_all [Key.tracked, Keys.handle_key]

theorem source_iff_state_handle (k : Keys) (key : Key) (pressed : Bool)
    (ih : k.source.isSome = true ↔ k.state = .Active) :
    ((k.handle_key key pressed).1.source.isSome = true ↔
      (k.handle_key key pressed).1.state = .Active) := by
  by_cases htr : key.tracked = true
  · rw [handle_key_eq_step _ _ _ htr]
    cases pressed
    · by_cases hcond : (k.updateFlag key false).state = .Active ∧
          (k.updateFlag key false).check_chord = none
      · rw [step_fst_release, if_pos hcond]
        show (none : Option ActivationSource).isSome = true ↔
          ActivationState.Inactive = ActivationState.Active
        decide
      · rw [step_fst_release, if_neg hcond, updateFlag_source, updateFlag_state]
        exact ih
    · by_cases hcond : (k.updateFlag key true).state = .Inactive ∧
          (k.updateFlag key true).check_chord.isSome
      · rw [step_fst_press, if_pos hcond]
        simpa using hcond.2
      · rw [step_fst_press, if_neg hcond, updateFlag_source, updateFlag_state]
        exact ih
  · cases key <;> simp_all [Key.tracked, Keys.handle_key]

theorem stays_active_runK (k : Keys) (evs : List KeyEvent)
    (hA : k.state = .Active) (hst : StaysActive k evs) :
    (k.runK evs).state = .Active ∧ (k.runK evs).source = k.source := by
  induction evs generalizing k with
  | nil => exact ⟨hA, rfl⟩
  | cons e evs ih =>
      have h1 : ((k.handle_key e.1 e.2).1).state = .Active := by
        have h := hst 1 (by simp)
        simpa [List.take_succ_cons, runK_cons, runK_nil] using h
      have hst2 : StaysActive (k.handle_key e.1 e.2).1 evs := by
        intro i hi
        have h := hst (i + 1) (by simpa using Nat.succ_le_succ hi)
        simpa [List.take_succ_cons, runK_cons] using h
      obtain ⟨hA2, hsrc⟩ := ih _ h1 hst2
      refine ⟨by simpa [runK_cons] using hA2, ?_⟩
      rw [runK_cons, hsrc]
      exact source_handle_of_still_active k e.1 e.2 hA h1

theorem releaseAltN_alt (k : Keys) (a j : Nat) (hj : j ≤ a) (ha : a ≤ 255)
    (hk : k.alt_pressed = a) : (k.releaseAltN j).alt_pressed = a - j := by
  induction j generalizing k a with
  | zero => simpa [Keys.releaseAltN] using hk
  | succ j ih =>
      have h1 : ((k.handle_key .Alt false).1).alt_pressed = a - 1 := by
        rw [alt_handle_release, hk]
        omega
      have h2 := ih ((k.handle_key .Alt false).1) (a - 1) (by omega) (by omega) h1
      have h3 : a - 1 - j = a - (j + 1) := by omega
      rw [show Keys.releaseAltN k (j + 1)
            = ((k.handle_key .Alt false).1).releaseAltN j from rfl, h2, h3]

/-!  The claim theorems. -/

/-- C1: from a fresh engine with a callback registered, the sequence
press-left-modifier, press-secondary, press-right-modifier,
release-left-modifier, release-right-modifier invokes the callback exactly
twice — `(Active, some LeftChord)` at the secondary press and
`(Inactive, some LeftChord)` at the final release; the third and fourth
events fire no callback and leave `get_state = Active`,
`get_source = some LeftChord`. -/
theorem c1_serialized_sequence_callbacks :
    (Keys.new.on_activation.run c1Events).2
        = [(.Active, some .LeftChord), (.Inactive, some .LeftChord)] ∧
    (Keys.new.on_activation.run (c1Events.take 2)).2
        = [(.Active, some .LeftChord)] ∧
    (Keys.new.on_activation.run (c1Events.take 3)).2
        = [(.Active, some .LeftChord)] ∧
    (Keys.new.on_activation.run (c1Events.take 4)).2
        = [(.Active, some .LeftChord)] ∧
    (Keys.new.on_activation.runK (c1Events.take 3)).get_state = .Active ∧
    (Keys.new.on_activation.runK (c1Events.take 3)).get_source = some .LeftChord ∧
    (Keys.new.on_activation.runK (c1Events.take 4)).get_state = .Active ∧
    (Keys.new.on_activation.runK (c1Events.take 4)).get_source = some .LeftChord := by
  decide

/-- C2: `check_chord` yields `some LeftChord` exactly under the left
condition, `some RightChord` exactly under the right condition with the left
condition failing (left priority), `none` exactly when both fail, and never
`some EitherChord`. -/
theorem c2_check_chord_characterization (k : Keys) :
    (k.check_chord = some .LeftChord ↔ leftSat k) ∧
    (k.check_chord = some .RightChord ↔ ¬ leftSat k ∧ rightSat k) ∧
    (k.check_chord = none ↔ ¬ leftSat k ∧ ¬ rightSat k) ∧
    k.check_chord ≠ some .EitherChord := by
  obtain ⟨ml, mr, alt, st, src, el, er, cb⟩ := k
  rcases Nat.eq_zero_or_pos alt with h | h <;>
    cases ml <;> cases mr <;> cases el <;> cases er <;>
      simp_all [Keys.check_chord, leftSat, rightSat]

/-- Concrete instance of C2's characterization, at the freshly constructed
engine. -/
theorem c2_check_chord_characterization_witness :
    Keys.new.check_chord ≠ some .EitherChord :=
  (c2_check_chord_characterization Keys.new).2.2.2

/-- C3 (the half the code does satisfy, and what it does instead of the
other half): `KeysHandle::new` propagates the platform hook error when the
OS refuses the hook; when the hook installs, the constructor calls the
blocking listen loop on its own thread, so it never returns `Ok`. -/
theorem c3_construction_error_and_blocking (e : ListenError) :
    KeysHandle.new (some e) = .err e ∧
    KeysHandle.new none = .blocks ∧
    (KeysHandle.new none).isRet = false :=
  ⟨rfl, rfl, rfl⟩

/-- C4: in every reachable engine state, `get_source` returns `some` iff
`get_state` returns Active. -/
theorem c4_state_source_invariant (k : Keys) (h : Reachable k) :
    k.get_source.isSome = true ↔ k.get_state = .Active := by
  induction h with
  | new => simp [Keys.new, Keys.get_source, Keys.get_state]
  | handle k key pressed hr ih => exact source_iff_state_handle k key pressed ih
  | set k l r hr ih => exact ih
  | register k hr ih => exact ih

/-- Concrete instance of C4's invariant, at the freshly constructed
engine. -/
theorem c4_state_source_invariant_witness :
    Keys.new.get_source.isSome = true ↔ Keys.new.get_state = .Active :=
  c4_state_source_invariant Keys.new Reachable.new

/-- C5: once the engine is Active with recorded source `s`, processing any
events through which it stays Active leaves the source equal to `some s`,
and whenever one further event deactivates it, the callback invocation of
that event (present exactly when a callback is registered) reports
`(Inactive, some s)`. -/
theorem c5_source_stability (k : Keys) (s : ActivationSource)
    (evs : List KeyEvent) (hA : k.state = .Active) (hs : k.source = some s)
    (hst : StaysActive k evs) :
    (k.runK evs).source = some s ∧
    ∀ key pressed,
      ((k.runK evs).handle_key key pressed).1.state = .Inactive →
      ((k.runK evs).handle_key key pressed).2 =
        if (k.runK evs).has_callback then [(.Inactive, some s)] else [] := by
  obtain ⟨hA2, hsrc⟩ := stays_active_runK k evs hA hst
  rw [hs] at hsrc
  refine ⟨hsrc, ?_⟩
  intro key pressed hI
  rw [output_handle_deactivation (k.runK evs) key pressed hA2 hI, hsrc]

/-- Concrete instance of C5: activate via the left chord, press the right
modifier (engine stays Active), and the recorded source is still the left
chord. -/
theorem c5_source_stability_witness :
    (kActive.runK [(.MetaRight, true)]).source = some .LeftChord :=
  (c5_source_stability kActive .LeftChord [(.MetaRight, true)]
    (by decide) (by decide) (by decide)).1

/-- C7: a release of the secondary chord key at hold-count 0 wraps the
`AtomicU8` counter to 255; the counter stays positive — so chord evaluation
passes its hold-count gate and tests only the modifier flags — until 255
further net releases bring it back to 0. -/
theorem c7_underflow_wraps_to_255 (k : Keys) (h : k.alt_pressed = 0) :
    (k.handle_key .Alt false).1.alt_pressed = 255 ∧
    (∀ j, j < 255 → 0 < (((k.handle_key .Alt false).1).releaseAltN j).alt_pressed) ∧
    (((k.handle_key .Alt false).1).releaseAltN 255).alt_pressed = 0 ∧
    (∀ k1 : Keys, 0 < k1.alt_pressed →
      k1.check_chord =
        (if k1.meta_left && k1.enabled_left then some .LeftChord
         else if k1.meta_right && k1.enabled_right then some .RightChord
         else none)) := by
  have h255 : (k.handle_key .Alt false).1.alt_pressed = 255 := by
    rw [alt_handle_release, h]
  refine ⟨h255, ?_, ?_, ?_⟩
  · intro j hj
    have := releaseAltN_alt _ 255 j (by omega) (by omega) h255
    omega
  · simpa using releaseAltN_alt _ 255 255 (by omega) (by omega) h255
  · intro k1 hk1
    simp [Keys.check_chord, hk1]

/-- Concrete instance of C7: on a fresh engine (hold-count 0), one release
of the secondary key drives the hold-count to 255. -/
theorem c7_underflow_wraps_to_255_witness :
    (Keys.new.handle_key .Alt false).1.alt_pressed = 255 :=
  (c7_underflow_wraps_to_255 Keys.new rfl).1

/-- C8: `set_enabled` writes exactly the two enablement flags — every other
field is unchanged — and invokes no callback. -/
theorem c8_set_enabled_frame (k : Keys) (left right : Bool) :
    (k.set_enabled left right).1.enabled_left = left ∧
    (k.set_enabled left right).1.enabled_right = right ∧
    (k.set_enabled left right).1.state = k.state ∧
    (k.set_enabled left right).1.source = k.source ∧
    (k.set_enabled left right).1.meta_left = k.meta_left ∧
    (k.set_enabled left right).1.meta_right = k.meta_right ∧
    (k.set_enabled left right).1.alt_pressed = k.alt_pressed ∧
    (k.set_enabled left right).1.has_callback = k.has_callback ∧
    (k.set_enabled left right).2 = [] :=
  ⟨rfl, rfl, rfl, rfl, rfl, rfl, rfl, rfl, rfl⟩

/-- C9: a press or release of any key other than the two modifiers and the
secondary chord key leaves the whole engine state unchanged, fires no
callback, and does not affect the processing of subsequent events. -/
theorem c9_untracked_key_ignored (k : Keys) (code : Nat) (pressed : Bool)
    (rest : List KeyEvent) :
    k.handle_key (.Other code) pressed = (k, []) ∧
    k.run ((Key.Other code, pressed) :: rest) = k.run rest := by
  refine ⟨rfl, ?_⟩
  show ((k.run rest).1, [] ++ (k.run rest).2) = k.run rest
  simp

/-- C10: while processing a press event an Active engine stays Active (even
if chord satisfaction evaluates to no side), and while processing a release
event an Inactive engine stays Inactive (even if chord satisfaction
evaluates to a side): activation happens only on presses, deactivation only
on releases. -/
theorem c10_transition_directionality (k : Keys) (key : Key) (pressed : Bool) :
    (pressed = true → k.state = .Active →
      (k.handle_key key pressed).1.state = .Active) ∧
    (pressed = false → k.state = .Inactive →
      (k.handle_key key pressed).1.state = .Inactive) := by
  constructor
  · rintro rfl hA
    by_cases htr : key.tracked = true
    · rw [handle_key_eq_step _ _ _ htr, state_step_press, updateFlag_state]
      exact Or.inl hA
    · cases key <;> simp_all [Key.tracked, Keys.handle_key]
  · rintro rfl hI
    by_cases htr : key.tracked = true
    · rw [handle_key_eq_step _ _ _ htr, step_fst_release]
      split_ifs with hcond
      · rfl
      · rw [updateFlag_state]; exact hI
    · cases key <;> simp_all [Key.tracked, Keys.handle_key]

/-- Concrete instance of C10: a press with both sides disabled (chord
unsatisfied) leaves an Active engine Active, and a secondary-key release
making the chord satisfied (via the counter wrap) leaves an Inactive engine
Inactive. -/
theorem c10_transition_directionality_witness :
    (kActiveDisabled.handle_key .MetaLeft true).1.state = .Active ∧
    (kInactiveChord.handle_key .Alt false).1.state = .Inactive :=
  ⟨(c10_transition_directionality kActiveDisabled .MetaLeft true).1 rfl (by decide),
   (c10_transition_directionality kInactiveChord .Alt false).2 rfl (by decide)⟩

/-!  Lemmas towards C6. -/

theorem state_inactive_of_ne_active (k : Keys) (h : ¬ k.state = .Active) :
    k.state = .Inactive := by
  cases hs : k.state
  · rfl
  · exact absurd hs h

theorem stateAt_append_of_le (k : Keys) (ws tl : List KeyEvent) (i : Nat)
    (h : i ≤ ws.length) : stateAt k (ws ++ tl) i = stateAt k ws i := by
  unfold stateAt
  rw [List.take_append_of_le_length h]

theorem stateAt_full (k : Keys) (evs : List KeyEvent) :
    stateAt k evs evs.length = k.runK evs := by
  unfold stateAt
  rw [List.take_length]

theorem stateAt_snoc_succ (k : Keys) (ws : List KeyEvent) (e : KeyEvent) :
    stateAt k (ws ++ [e]) (ws.length + 1)
      = ((k.runK ws).handle_key e.1 e.2).1 := by
  unfold stateAt
  rw [List.take_of_length_le (by simp), runK_append, runK_cons, runK_nil]

theorem goodIndex_restrict (k : Keys) (ws : List KeyEvent) (e : KeyEvent)
    (i : Nat) (hi : i < ws.length) (h : GoodIndex k (ws ++ [e]) i) :
    GoodIndex k ws i := by
  obtain ⟨-, htrans, hall⟩ := h
  refine ⟨hi, ⟨?_, ?_⟩, ?_⟩
  · have h1 := htrans.1
    rwa [stateAt_append_of_le k ws [e] i (Nat.le_of_lt hi)] at h1
  · have h2 := htrans.2
    rwa [stateAt_append_of_le k ws [e] (i + 1) (by omega)] at h2
  · intro j hij hj hrel
    have hlen : (ws ++ [e]).length = ws.length + 1 := by simp
    have h3 := hall j hij (by omega)
      (by rw [List.getD_append ws [e] _ j hj]; exact hrel)
    rwa [stateAt_append_of_le k ws [e] (j + 1) (by omega)] at h3

theorem goodIndex_extend (k : Keys) (ws : List KeyEvent) (e : KeyEvent)
    (i : Nat) (h : GoodIndex k ws i)
    (he : e.2 = false →
      ((k.runK ws).handle_key e.1 e.2).1.check_chord ≠ none) :
    GoodIndex k (ws ++ [e]) i := by
  obtain ⟨hi, htrans, hall⟩ := h
  have hlen : (ws ++ [e]).length = ws.length + 1 := by simp
  refine ⟨by omega, ⟨?_, ?_⟩, ?_⟩
  · rw [stateAt_append_of_le k ws [e] i (Nat.le_of_lt hi)]
    exact htrans.1
  · rw [stateAt_append_of_le k ws [e] (i + 1) (by omega)]
    exact htrans.2
  · intro j hij hj hrel
    rw [hlen] at hj
    rcases Nat.lt_or_ge j ws.length with hlt | hge
    · rw [stateAt_append_of_le k ws [e] (j + 1) (by omega)]
      refine hall j hij hlt ?_
      rwa [List.getD_append ws [e] _ j hlt] at hrel
    · have hj2 : j = ws.length := by omega
      subst hj2
      rw [stateAt_snoc_succ]
      apply he
      rwa [List.getD_append_right ws [e] _ ws.length (Nat.le_refl _),
        Nat.sub_self] at hrel

theorem active_iff_goodIndex (k0 : Keys) (h0 : k0.state = .Inactive)
    (evs : List KeyEvent) :
    (∀ e ∈ evs, e.1.tracked = true) →
    ((k0.runK evs).state = .Active ↔ ∃ i, GoodIndex k0 evs i) := by
  induction evs using List.reverseRecOn with
  | nil =>
      intro _
      rw [runK_nil, h0]
      constructor
      · intro h
        exact ActivationState.noConfusion h
      · rintro ⟨i, hi, -⟩
        simp at hi
  | append_singleton ws e ih =>
      intro htr
      have htrws : ∀ x ∈ ws, x.1.tracked = true := fun x hx =>
        htr x (List.mem_append_left _ hx)
      have htre : e.1.tracked = true := htr e (by simp)
      have ihw := ih htrws
      obtain ⟨key, pressed⟩ := e
      have hone : ∀ k : Keys, k.runK [(key, pressed)]
          = (k.handle_key key pressed).1 := fun k => rfl
      have hrunK : k0.runK (ws ++ [(key, pressed)])
          = ((k0.runK ws).handle_key key pressed).1 :=
        (runK_append k0 ws [(key, pressed)]).trans (hone _)
      cases pressed
      · rw [hrunK, state_handle_release (k0.runK ws) key htre]
        constructor
        · rintro ⟨hkfA, hchord⟩
          obtain ⟨i, hgood⟩ := ihw.mp hkfA
          refine ⟨i, goodIndex_extend k0 ws (key, false) i hgood ?_⟩
          intro _
          rw [check_chord_handle (k0.runK ws) key false htre]
          exact hchord
        · rintro ⟨i, hgood⟩
          rcases Nat.lt_or_ge i ws.length with hlt | hge
          · have hkfA := ihw.mpr
              ⟨i, goodIndex_restrict k0 ws (key, false) i hlt hgood⟩
            refine ⟨hkfA, ?_⟩
            have hlen : (ws ++ [(key, false)]).length = ws.length + 1 := by
              simp
            have hlast := hgood.2.2 ws.length hlt (by omega)
              (by rw [List.getD_append_right ws [(key, false)] _ ws.length
                  (Nat.le_refl _), Nat.sub_self]; rfl)
            rwa [stateAt_snoc_succ,
              check_chord_handle (k0.runK ws) key false htre] at hlast
          · have hlen : (ws ++ [(key, false)]).length = ws.length + 1 := by
              simp
            have hieq : i = ws.length := by
              have h1 := hgood.1
              omega
            subst hieq
            have h2 := hgood.2.1.2
            rwa [stateAt_snoc_succ,
              state_handle_release (k0.runK ws) key htre] at h2
      · rw [hrunK, state_handle_press (k0.runK ws) key htre]
        constructor
        · intro hor
          by_cases hkfA : (k0.runK ws).state = .Active
          · obtain ⟨i, hgood⟩ := ihw.mp hkfA
            refine ⟨i, goodIndex_extend k0 ws (key, true) i hgood ?_⟩
            intro habs
            exact Bool.noConfusion habs
          · have hsome :
                ((k0.runK ws).updateFlag key true).check_chord.isSome = true := by
              rcases hor with h | h
              · exact absurd h hkfA
              · exact h
            have hkfI := state_inactive_of_ne_active _ hkfA
            have hlen : (ws ++ [(key, true)]).length = ws.length + 1 := by
              simp
            refine ⟨ws.length, by omega, ⟨?_, ?_⟩, ?_⟩
            · rw [stateAt_append_of_le k0 ws [(key, true)] ws.length
                (Nat.le_refl _), stateAt_full]
              exact hkfI
            · rw [stateAt_snoc_succ,
                state_handle_press (k0.runK ws) key htre]
              exact Or.inr hsome
            · intro j hij hj hrel
              exact absurd (by omega : j < ws.length + 1) (by omega)
        · rintro ⟨i, hgood⟩
          rcases Nat.lt_or_ge i ws.length with hlt | hge
          · exact Or.inl (ihw.mpr
              ⟨i, goodIndex_restrict k0 ws (key, true) i hlt hgood⟩)
          · have hlen : (ws ++ [(key, true)]).length = ws.length + 1 := by
              simp
            have hieq : i = ws.length := by
              have h1 := hgood.1
              omega
            subst hieq
            have h2 := hgood.2.1.2
            rwa [stateAt_snoc_succ,
              state_handle_press (k0.runK ws) key htre] at h2

/-- C6 is false as stated: on the three tracked keys alone, the sequence
release-secondary (hold-count wraps to 255), press-left-modifier (engine
activates), press-secondary (hold-count wraps back to 0, chord satisfaction
false for both sides) leaves the engine Active although an event since the
activation saw chord satisfaction false for both sides. -/
theorem c6_counterexample : ¬ mostRecentActivationClaim Keys.new c6Events := by
  intro hcl
  have hA : (Keys.new.runK c6Events).state = .Active := by decide
  obtain ⟨i, hi, htrans, hall⟩ := hcl.mp hA
  have hi3 : i < 3 := hi
  interval_cases i
  · exact absurd htrans.2 (by decide)
  · exact hall 2 (by omega) (by decide) (by decide)
  · exact absurd htrans.1 (by decide)

/-- C6 (amended): for event sequences over the two modifier keys and the
secondary key, the engine is Active exactly when it transitioned to Active
at some event and no later release event saw chord satisfaction false for
both sides (a press event at which chord satisfaction evaluates false —
possible only through the hold-counter wrap — does not deactivate). -/
theorem c6_active_iff_recent_activation (evs : List KeyEvent)
    (htr : ∀ e ∈ evs, e.1.tracked = true) :
    (Keys.new.runK evs).state = .Active ↔ ∃ i, GoodIndex Keys.new evs i :=
  active_iff_goodIndex Keys.new rfl evs htr

/-- Concrete instance of the amended C6: press-left-modifier then
press-secondary activates the engine, and an activation index exists. -/
theorem c6_active_iff_recent_activation_witness :
    ∃ i, GoodIndex Keys.new [(Key.MetaLeft, true), (Key.Alt, true)] i :=
  (c6_active_iff_recent_activation [(Key.MetaLeft, true), (Key.Alt, true)]
    (by decide)).mp (by decide)
